import Mathlib

/-!
Verification development for the rfasta FASTA-cleaning library.

The Rust sources (`configs.rs`, `utilities.rs`, `sequence_processing.rs`,
`io.rs`) are shallowly embedded below.  Rust `String`s are modeled as
`List Char`; Rust `Vec<Vec<String>>` datasets of `[header, sequence]` rows
are modeled as lists of two-field records; fallible functions returning
`PyResult`/`Result<_, String>` are modeled with `Except String`.
Hash-map based lookups in the source are modeled by association lists
(first-match lookup, matching Rust's `HashMap::get` soundness on the
key-unique maps the code builds).  Iteration order over `HashMap`s and
`HashSet`s is unspecified in Rust; where the source iterates such a
container the embedding fixes the declaration order of `configs.rs`
(for conversion tables) or first-occurrence order (for character sets),
and the proved properties are insensitive to that choice.
-/

namespace Rfasta

/-- Rust `String` (headers, sequences, file lines) as a list of characters. -/
abbrev Str := List Char

/-- A FASTA record: one `[header, sequence]` row of the Rust
`Vec<Vec<String>>` datasets. -/
structure Rec where
  header : Str
  seq : Str
deriving DecidableEq, Repr

/-- `configs.rs` `STANDARD_CONVERSION`: the default correction table used
when `alignment = false`. -/
def STANDARD_CONVERSION : List (Str × Str) :=
  [(['B'], ['N']), (['U'], ['C']), (['X'], ['G']), (['Z'], ['Q']),
   (['*'], []), (['-'], [])]

/-- `configs.rs` `STANDARD_CONVERSION_WITH_GAP`: the default correction
table used when `alignment = true` (maps a space, not `-`, to empty). -/
def STANDARD_CONVERSION_WITH_GAP : List (Str × Str) :=
  [(['B'], ['N']), (['U'], ['C']), (['X'], ['G']), (['Z'], ['Q']),
   ([' '], []), (['*'], [])]

/-- `configs.rs` `STANDARD_AAS`: the 20 canonical amino-acid characters. -/
def STANDARD_AAS : List Char :=
  ['A', 'C', 'D', 'E', 'F', 'G', 'H', 'I', 'K', 'L',
   'M', 'N', 'P', 'Q', 'R', 'S', 'T', 'V', 'W', 'Y']

/-- `configs.rs` `STANDARD_AAS_WITH_GAP`: the 20 canonical amino acids
plus the gap character `-`. -/
def STANDARD_AAS_WITH_GAP : List Char :=
  ['A', 'C', 'D', 'E', 'F', 'G', 'H', 'I', 'K', 'L',
   'M', 'N', 'P', 'Q', 'R', 'S', 'T', 'V', 'W', 'Y', '-']

/-- Fueled core of Rust `str::replace`: replaces every leftmost,
non-overlapping occurrence of `needle` in the remaining text by `repl`.
Each step consumes at least one character of the text, so `fuel`
initialized to the text's length makes the fuel case unreachable
(the source never calls `replace` with an empty pattern). -/
def replaceGo (needle repl : Str) : Nat → Str → Str
  | 0, s => s
  | _ + 1, [] => []
  | fuel + 1, c :: rest =>
    if needle ≠ [] ∧ needle.isPrefixOf (c :: rest) then
      repl ++ replaceGo needle repl fuel ((c :: rest).drop needle.length)
    else
      c :: replaceGo needle repl fuel rest

/-- Rust `s.replace(needle, repl)`. -/
def replaceStr (s needle repl : Str) : Str :=
  replaceGo needle repl s.length s

/-- `utilities.rs` `convert_to_valid`: rewrites `seq` by applying every
(source, target) substitution of the chosen table (the caller-supplied
dictionary if any, else the default table for the alignment mode),
one full-string replace per entry. -/
def convert_to_valid (seq : Str) (alignment : Bool)
    (correction_dictionary : Option (List (Str × Str))) : Str :=
  let converter : List (Str × Str) :=
    match correction_dictionary with
    | some dict => dict
    | none =>
      if alignment then STANDARD_CONVERSION_WITH_GAP else STANDARD_CONVERSION
  converter.foldl (fun r kv => replaceStr r kv.1 kv.2) seq

/-- `utilities.rs` `check_sequence_is_valid`: scans the sequence's
characters against the active alphabet and reports the first invalid one
(the source iterates a `HashSet` of the characters in unspecified order;
first-occurrence order is fixed here), or `(true, '0')` if all valid. -/
def check_sequence_is_valid (seq : Str) (alignment : Bool) : Bool × Char :=
  let valid_aa_list : List Char :=
    if alignment then STANDARD_AAS_WITH_GAP else STANDARD_AAS
  match seq.find? (fun c => decide (c ∉ valid_aa_list)) with
  | some c => (false, c)
  | none => (true, '0')

/-- `utilities.rs` `convert_invalid_sequences`: applies the corrector to
every record's sequence and counts the records whose sequence changed
(per-record prior/posterior string equality). -/
def convert_invalid_sequences (dataset : List Rec)
    (correction_dictionary : Option (List (Str × Str))) (alignment : Bool) :
    List Rec × Nat :=
  match dataset with
  | [] => ([], 0)
  | r :: rest =>
    let corrected := convert_to_valid r.seq alignment correction_dictionary
    let tail := convert_invalid_sequences rest correction_dictionary alignment
    (⟨r.header, corrected⟩ :: tail.1,
     (if corrected = r.seq then 0 else 1) + tail.2)

/-- `utilities.rs` `remove_invalid_sequences`: filters out the records
whose sequence is invalid for the active alphabet. -/
def remove_invalid_sequences (dataset : List Rec) (alignment : Bool) :
    List Rec :=
  dataset.filter (fun r => (check_sequence_is_valid r.seq alignment).1)

/-- `utilities.rs` `fail_on_invalid_sequences`: errors on the first record
whose sequence is invalid, naming the invalid character and the header. -/
def fail_on_invalid_sequences : List Rec → Bool → Except String Unit
  | [], _ => .ok ()
  | r :: rest, alignment =>
    let check := check_sequence_is_valid r.seq alignment
    if check.1 then fail_on_invalid_sequences rest alignment
    else
      .error ("Invalid character '" ++ String.mk [check.2] ++
        "' found in sequence: " ++ String.mk r.header)

/-- First-match association-list lookup, modeling `HashMap::get` on the
key-unique maps built by the duplicate detectors. -/
def lookupAssoc {α : Type} (l : List (Str × α)) (h : Str) : Option α :=
  (l.find? (fun p => decide (p.1 = h))).map (fun p => p.2)

/-- In-place value update at a key, modeling `HashMap::get_mut` mutation. -/
def updateAssoc {α : Type} (l : List (Str × α)) (k : Str) (v : α) :
    List (Str × α) :=
  l.map (fun p => if p.1 = k then (k, v) else p)

/-- Loop of `utilities.rs` `fail_on_duplicates`: `lookup` records, per
header, the sequence of the first entry seen with that header (later
same-header entries are compared against it but never inserted). -/
def fail_on_duplicates_go (lookup : List (Str × Str)) :
    List (Str × Str) → Except String Unit
  | [] => .ok ()
  | e :: rest =>
    match lookupAssoc lookup e.1 with
    | some existing =>
      if existing = e.2 then
        .error ("Found duplicate entries of the following record:\n>" ++
          String.mk e.1 ++ "\n" ++ String.mk e.2)
      else fail_on_duplicates_go lookup rest
    | none => fail_on_duplicates_go (lookup ++ [(e.1, e.2)]) rest

/-- `utilities.rs` `fail_on_duplicates` over (header, sequence) pairs. -/
def fail_on_duplicates (dataset : List (Str × Str)) : Except String Unit :=
  fail_on_duplicates_go [] dataset

/-- Loop of `utilities.rs` `remove_duplicates`: `lookup` maps each header
to the list of distinct sequences kept so far under that header. -/
def remove_duplicates_go (lookup : List (Str × List Str))
    (updated : List (Str × Str)) :
    List (Str × Str) → List (Str × Str)
  | [] => updated
  | e :: rest =>
    match lookupAssoc lookup e.1 with
    | none =>
      remove_duplicates_go (lookup ++ [(e.1, [e.2])]) (updated ++ [e]) rest
    | some ss =>
      if e.2 ∈ ss then remove_duplicates_go lookup updated rest
      else
        remove_duplicates_go (updateAssoc lookup e.1 (ss ++ [e.2]))
          (updated ++ [e]) rest

/-- `utilities.rs` `remove_duplicates` over (header, sequence) pairs. -/
def remove_duplicates (dataset : List (Str × Str)) : List (Str × Str) :=
  remove_duplicates_go [] [] dataset

/-- Spec-side formalization of "drops exactly the entries whose
(header, sequence) pair occurred earlier, keeping the first occurrence of
each pair in original order", to be compared with `remove_duplicates`. -/
def firstDedup (dataset : List (Str × Str)) : List (Str × Str) :=
  dataset.foldl (fun acc e => if e ∈ acc then acc else acc ++ [e]) []

/-- Modelled from the spec: `utilities::fail_on_duplicate_records` is
called by `sequence_processing.rs` but absent from the sources; per §4.4
it fails with the first header seen twice, in input order. -/
def fail_on_duplicate_records_go (seen : List Str) :
    List Rec → Except String Unit
  | [] => .ok ()
  | r :: rest =>
    if r.header ∈ seen then
      .error ("Found duplicate header: " ++ String.mk r.header)
    else fail_on_duplicate_records_go (seen ++ [r.header]) rest

/-- Modelled from the spec: `utilities::fail_on_duplicate_records` (see
`fail_on_duplicate_records_go`). -/
def fail_on_duplicate_records (data : List Rec) : Except String Unit :=
  fail_on_duplicate_records_go [] data

/-- Modelled from the spec: `utilities::remove_duplicate_records` is
called by `sequence_processing.rs` but absent from the sources; per §4.4
it keeps the first occurrence of each header, in original order. -/
def remove_duplicate_records_go (seen : List Str) :
    List Rec → List Rec
  | [] => []
  | r :: rest =>
    if r.header ∈ seen then remove_duplicate_records_go seen rest
    else r :: remove_duplicate_records_go (seen ++ [r.header]) rest

/-- Modelled from the spec: `utilities::remove_duplicate_records` (see
`remove_duplicate_records_go`). -/
def remove_duplicate_records (data : List Rec) : List Rec :=
  remove_duplicate_records_go [] data

/-- Modelled from the spec: `utilities::fail_on_duplicate_sequences` is
called by `sequence_processing.rs` but absent from the sources; per §4.4
it fails with the first sequence body seen twice, in input order. -/
def fail_on_duplicate_sequences_go (seen : List Str) :
    List Rec → Except String Unit
  | [] => .ok ()
  | r :: rest =>
    if r.seq ∈ seen then
      .error ("Found duplicate sequence: " ++ String.mk r.seq)
    else fail_on_duplicate_sequences_go (seen ++ [r.seq]) rest

/-- Modelled from the spec: `utilities::fail_on_duplicate_sequences` (see
`fail_on_duplicate_sequences_go`). -/
def fail_on_duplicate_sequences (data : List Rec) : Except String Unit :=
  fail_on_duplicate_sequences_go [] data

/-- Modelled from the spec: `utilities::remove_duplicate_sequences` is
called by `sequence_processing.rs` but absent from the sources; per §4.4
it keeps the first occurrence of each sequence body, in original order. -/
def remove_duplicate_sequences_go (seen : List Str) :
    List Rec → List Rec
  | [] => []
  | r :: rest =>
    if r.seq ∈ seen then remove_duplicate_sequences_go seen rest
    else r :: remove_duplicate_sequences_go (seen ++ [r.seq]) rest

/-- Modelled from the spec: `utilities::remove_duplicate_sequences` (see
`remove_duplicate_sequences_go`). -/
def remove_duplicate_sequences (data : List Rec) : List Rec :=
  remove_duplicate_sequences_go [] data

/-- `sequence_processing.rs` `deal_with_invalid_sequences`: dispatches on
the `invalid_sequence_action` string.  The source's `match` has arms for
`"fail"`, `"remove"`, `"convert" | "convert-ignore"` and `"ignore"`; every
other string, including `"convert-remove"`, falls to the error arm.
(The `verbose` printing of the source is not modeled.) -/
def deal_with_invalid_sequences (data : List Rec)
    (invalid_sequence_action : String) (alignment : Bool)
    (correction_dictionary : Option (List (Str × Str))) :
    Except String (List Rec) :=
  if invalid_sequence_action = "fail" then
    (fail_on_invalid_sequences data alignment).bind (fun _ => .ok data)
  else if invalid_sequence_action = "remove" then
    .ok (remove_invalid_sequences data alignment)
  else if invalid_sequence_action = "convert" ∨
      invalid_sequence_action = "convert-ignore" then
    let updated := (convert_invalid_sequences data correction_dictionary
      alignment).1
    if invalid_sequence_action = "convert" then
      (fail_on_invalid_sequences updated alignment).bind (fun _ => .ok updated)
    else .ok updated
  else if invalid_sequence_action = "ignore" then .ok data
  else
    .error ("Invalid option for 'invalid_sequence_action': " ++
      invalid_sequence_action)

/-- `sequence_processing.rs` `deal_with_duplicate_records`. -/
def deal_with_duplicate_records (data : List Rec)
    (duplicate_record_action : String) : Except String (List Rec) :=
  if duplicate_record_action = "ignore" then .ok data
  else if duplicate_record_action = "fail" then
    (fail_on_duplicate_records data).bind (fun _ => .ok data)
  else if duplicate_record_action = "remove" then
    .ok (remove_duplicate_records data)
  else
    .error ("Invalid option for 'duplicate_record_action': " ++
      duplicate_record_action)

/-- `sequence_processing.rs` `deal_with_duplicate_sequences`. -/
def deal_with_duplicate_sequences (data : List Rec)
    (duplicate_sequence_action : String) : Except String (List Rec) :=
  if duplicate_sequence_action = "ignore" then .ok data
  else if duplicate_sequence_action = "fail" then
    (fail_on_duplicate_sequences data).bind (fun _ => .ok data)
  else if duplicate_sequence_action = "remove" then
    .ok (remove_duplicate_sequences data)
  else
    .error ("Invalid option for 'duplicate_sequence_action': " ++
      duplicate_sequence_action)

/-- `sequence_processing.rs` `clean_sequences`: the fixed-order cleaning
pipeline.  The `rand::thread_rng` shuffle of the subsampling stage is
modeled by the explicit `shuffle` parameter (applied only when
`random_subsample` is set); `verbose` printing is not modeled.
Sequence lengths are byte lengths in the source and character counts
here, identical on the ASCII residue strings the tool processes. -/
def clean_sequences (data : List Rec) (invalid_sequence_action : String)
    (duplicate_record_action : String) (duplicate_sequence_action : String)
    (shortest_seq : Option Nat) (longest_seq : Option Nat)
    (random_subsample : Option Nat) (remove_comma_from_header : Bool)
    (alignment : Bool) (shuffle : List Rec → List Rec) :
    Except String (List Rec) :=
  (deal_with_invalid_sequences data invalid_sequence_action alignment
      none).bind fun p1 =>
  (deal_with_duplicate_records p1 duplicate_record_action).bind fun p2 =>
  (deal_with_duplicate_sequences p2 duplicate_sequence_action).bind fun p3 =>
  let p4 := match shortest_seq with
    | some min_len => p3.filter (fun r => decide (min_len ≤ r.seq.length))
    | none => p3
  let p5 := match longest_seq with
    | some max_len => p4.filter (fun r => decide (r.seq.length ≤ max_len))
    | none => p4
  let p6 := match random_subsample with
    | some sample_size => (shuffle p5).take sample_size
    | none => p5
  let p7 :=
    if remove_comma_from_header then
      p6.map (fun r => ⟨replaceStr r.header [','] [';'], r.seq⟩)
    else p6
  .ok p7

/-- The checks of `io.rs` `check_inputs` that follow the header-parser
validation block, in source order.  The "must be a boolean" checks of the
source test Rust `bool`s for being `false`. -/
def check_inputs_rest (expect_unique_header : Bool)
    (duplicate_record_action duplicate_sequence_action
      invalid_sequence_action : String)
    (alignment return_list : Bool) (output_filename : Option String)
    (verbose : Bool)
    (correction_dictionary : Option (List (String × String))) :
    Except String Unit :=
  if ¬(duplicate_record_action = "ignore" ∨ duplicate_record_action = "fail" ∨
      duplicate_record_action = "remove") then
    .error "keyword 'duplicate_record_action' must be one of 'ignore','fail','remove'"
  else if ¬(duplicate_sequence_action = "ignore" ∨
      duplicate_sequence_action = "fail" ∨
      duplicate_sequence_action = "remove") then
    .error "keyword 'duplicate_sequence_action' must be one of 'ignore','fail', 'remove'"
  else if ¬(invalid_sequence_action = "ignore" ∨
      invalid_sequence_action = "fail" ∨ invalid_sequence_action = "remove" ∨
      invalid_sequence_action = "convert" ∨
      invalid_sequence_action = "convert-ignore" ∨
      invalid_sequence_action = "convert-remove") then
    .error "keyword 'invalid_sequence_action' must be one of 'ignore','fail','remove','convert','convert-ignore', 'convert-remove'"
  else if return_list = false then
    .error "keyword 'return_list' must be a boolean"
  else if output_filename = some "" then
    .error "keyword 'output_filename' must be a non-empty string"
  else if verbose = false then
    .error "keyword 'verbose' must be a boolean"
  else if alignment = false then
    .error "keyword 'alignment' must be a boolean"
  else if duplicate_record_action = "ignore" ∧ expect_unique_header = true then
    .error "Cannot expect unique headers and ignore duplicate records"
  else if correction_dictionary = some [] then
    .error "If provided, keyword 'correction_dictionary' must be a non-empty dictionary"
  else .ok ()

/-- `io.rs` `check_inputs`.  `header_fn` models the source's
`header_parser` argument (an optional `Fn(String) -> Result<String, String>`).
When `check_header_parser` is set and a parser is supplied, the source
RETURNS the outcome of a test invocation immediately, skipping every
later check. -/
def check_inputs (expect_unique_header : Bool)
    (header_fn : Option (String → Except String String))
    (check_header_fn : Bool)
    (duplicate_record_action duplicate_sequence_action
      invalid_sequence_action : String)
    (alignment return_list : Bool) (output_filename : Option String)
    (verbose : Bool)
    (correction_dictionary : Option (List (String × String))) :
    Except String Unit :=
  if expect_unique_header = false then
    .error "keyword 'expect_unique_header' must be a boolean"
  else
    match check_header_fn, header_fn with
    | true, some f =>
      match f "this test string should work" with
      | .ok a =>
        if a = "" then .ok ()
        else
          .error "Something went wrong when testing the header_parser function.\nFunction completed but return value was not a string"
      | .error e =>
        .error ("Something went wrong when testing the header_parser function using string: this test string should work.\nMaybe you should set check_header_parser to False? \nException: " ++ e)
    | _, _ =>
      check_inputs_rest expect_unique_header duplicate_record_action
        duplicate_sequence_action invalid_sequence_action alignment
        return_list output_filename verbose correction_dictionary

/-- Rust `str::trim` (the source trims each line before inspecting it). -/
def trimStr (s : Str) : Str :=
  ((s.dropWhile Char.isWhitespace).reverse.dropWhile Char.isWhitespace).reverse

/-- The outcome of `io.rs` `_parse_fasta_all`, whose Rust return type is a
plain `Vec`: either the parsed records, or a `panic!` abort (the
`Found duplicate header` path), which is NOT an error result the caller
can receive. -/
inductive ParseOutcome where
  | ok : List Rec → ParseOutcome
  | panicked : String → ParseOutcome
deriving DecidableEq, Repr

/-- The nested `update` function of `_parse_fasta_all`: registers the
completed record, panicking on a repeated header when `expect_unique_header`
is set.  The state is (`all_headers` as an insertion-ordered key list,
the records emitted so far). -/
def parse_update (header seq : Str) (expect_unique_header : Bool)
    (st : List Str × List Rec) : Except String (List Str × List Rec) :=
  if st.1.contains header then
    if expect_unique_header then
      .error ("Found duplicate header (" ++ String.mk header ++ ")")
    else .ok (st.1, st.2 ++ [⟨header, seq.map Char.toUpper⟩])
  else
    .ok (st.1 ++ [header], st.2 ++ [⟨header, seq.map Char.toUpper⟩])

/-- The line loop of `_parse_fasta_all`, carrying the pending `header` and
`seq` accumulators.  A `.error` value is a pending `panic!`. -/
def parse_loop (expect_unique_header : Bool) (header_fn : Option (Str → Str)) :
    List Str → Str → Str → List Str × List Rec →
    Except String (List Str × List Rec)
  | [], header, seq, st =>
    if seq = [] then .ok st
    else parse_update header seq expect_unique_header st
  | line :: rest, header, seq, st =>
    let sline := trimStr line
    if sline = [] then parse_loop expect_unique_header header_fn rest header seq st
    else if sline.head? = some '>' then
      match (if seq = [] then Except.ok st
        else parse_update header seq expect_unique_header st) with
      | .error e => .error e
      | .ok st' =>
        let h := sline.tail
        parse_loop expect_unique_header header_fn rest
          (match header_fn with
           | some f => f h
           | none => h) [] st'
    else parse_loop expect_unique_header header_fn rest header (seq ++ sline) st

/-- `io.rs` `_parse_fasta_all`: parses trimmed lines into records; with
`expect_unique_header` set, a repeated header aborts via `panic!`
(`ParseOutcome.panicked`), there is no error-result path. -/
def _parse_fasta_all (content : List Str) (expect_unique_header : Bool)
    (header_fn : Option (Str → Str)) : ParseOutcome :=
  match parse_loop expect_unique_header header_fn content [] [] ([], []) with
  | .ok st => .ok st.2
  | .error e => .panicked e

/-- Fueled core of `slice::chunks`: splits into pieces of `len` characters,
last piece possibly shorter.  `fuel` initialized to the text's length
suffices whenever `len ≥ 1` (the source clamps `len` to at least 5). -/
def chunksGo (len : Nat) : Nat → Str → List Str
  | 0, s => if s = [] then [] else [s]
  | fuel + 1, s =>
    if s = [] then [] else s.take len :: chunksGo len fuel (s.drop len)

/-- `seq.as_bytes().chunks(len)` of `io.rs` `write_fasta`. -/
def seq_chunks (len : Nat) (s : Str) : List Str :=
  chunksGo len s.length s

/-- The bytes `io.rs` `write_fasta` emits for one record: the `>`-prefixed
header line, the sequence (as one line, or wrapped into `line_length`
chunks each on its own line), and a blank separator line. -/
def write_fasta_entry (line_length : Option Nat) (header seq : Str) : Str :=
  ('>' :: header ++ ['\n']) ++
  (match line_length with
   | some len => (seq_chunks len seq).foldl (fun acc c => acc ++ c ++ ['\n']) []
   | none => seq ++ ['\n']) ++ ['\n']

/-- The record loop of `io.rs` `write_fasta`: rejects rows that are not
exactly `[header, sequence]` and rows with an empty sequence, and
concatenates the rendered records otherwise. -/
def write_fasta_go (ll : Option Nat) : List (List Str) → Except String Str
  | [] => .ok []
  | entry :: rest =>
    match entry with
    | [header, seq] =>
      if seq = [] then
        .error ("Sequence associated with [" ++ String.mk header ++
          "] is empty")
      else
        (write_fasta_go ll rest).map
          (fun tail => write_fasta_entry ll header seq ++ tail)
    | _ => .error "Each entry must contain exactly two elements: header and sequence"

/-- `io.rs` `write_fasta`, as the bytes a successful call writes (file
handling and `verbose` printing are not modeled; a `line_length` below 5
is silently clamped to 5 before any record is written). -/
def write_fasta_render (fasta_data : List (List Str))
    (line_length : Option Nat) : Except String Str :=
  let ll : Option Nat := match line_length with
    | some len => if 5 ≤ len then some len else some 5
    | none => none
  write_fasta_go ll fasta_data

/-! Helper lemmas. -/

/-- Every character of a replacement result comes from the replacement
string or from the original text. -/
theorem mem_replaceGo {c : Char} (needle repl : Str) :
    ∀ (fuel : Nat) (s : Str), c ∈ replaceGo needle repl fuel s →
      c ∈ repl ∨ c ∈ s := by
  intro fuel
  induction fuel with
  | zero => intro s h; exact Or.inr h
  | succ n ih =>
    intro s h
    match s with
    | [] => simp [replaceGo] at h
    | c' :: rest =>
      rw [replaceGo] at h
      split at h
      · rcases List.mem_append.1 h with h1 | h2
        · exact Or.inl h1
        · rcases ih _ h2 with h3 | h4
          · exact Or.inl h3
          · exact Or.inr (List.mem_of_mem_drop h4)
      · rcases List.mem_cons.1 h with rfl | h5
        · exact Or.inr (List.mem_cons_self _ _)
        · rcases ih _ h5 with h6 | h7
          · exact Or.inl h6
          · exact Or.inr (List.mem_cons_of_mem _ h7)

/-- A singleton needle is absent from the replacement result when it is
absent from the replacement string. -/
theorem not_mem_replaceGo_single {k : Char} {repl : Str} (hk : k ∉ repl) :
    ∀ (fuel : Nat) (s : Str), s.length ≤ fuel →
      k ∉ replaceGo [k] repl fuel s := by
  intro fuel
  induction fuel with
  | zero =>
    intro s hs
    have : s = [] := List.length_eq_zero.1 (Nat.le_zero.1 hs)
    subst this
    simp [replaceGo]
  | succ n ih =>
    intro s hs
    match s with
    | [] => simp [replaceGo]
    | c' :: rest =>
      rw [replaceGo]
      split
      · next hcond =>
        have hkc : k = c' := by
          have := hcond.2
          simp [List.isPrefixOf] at this
          exact this
        intro hmem
        rcases List.mem_append.1 hmem with h1 | h2
        · exact hk h1
        · have hlen : rest.length ≤ n := by
            simpa using Nat.succ_le_succ_iff.1 hs
          exact ih ((c' :: rest).drop [k].length)
            (by simpa using hlen) (by simpa using h2)
      · next hcond =>
        have hkc : k ≠ c' := by
          intro h
          exact hcond ⟨by simp, by simp [List.isPrefixOf, h]⟩
        intro hmem
        rcases List.mem_cons.1 hmem with h1 | h2
        · exact hkc h1
        · exact ih rest (Nat.succ_le_succ_iff.1 hs) h2

/-- Applying a substitution table whose values lie in the alphabet `V`, to
a text each of whose out-of-alphabet characters is a key of the table,
yields a text inside `V`. -/
theorem foldl_replace_mem_alphabet (V : List Char) :
    ∀ (L : List (Str × Str)) (s : Str),
      (∀ kv ∈ L, ∀ u ∈ kv.2, u ∈ V) →
      (∀ c ∈ s, c ∈ V ∨ ∃ v, ([c], v) ∈ L) →
      ∀ c ∈ L.foldl (fun r kv => replaceStr r kv.1 kv.2) s, c ∈ V := by
  intro L
  induction L with
  | nil =>
    intro s _ hs c hc
    rcases hs c hc with h | ⟨v, hv⟩
    · exact h
    · exact absurd hv (List.not_mem_nil _)
  | cons kv L' ih =>
    intro s hL hs c hc
    rw [List.foldl_cons] at hc
    refine ih (replaceStr s kv.1 kv.2)
      (fun p hp u hu => hL p (List.mem_cons_of_mem _ hp) u hu) ?_ c hc
    intro c' hc'
    rcases mem_replaceGo kv.1 kv.2 _ _ hc' with hin_v | hin_s
    · exact Or.inl (hL kv (List.mem_cons_self _ _) c' hin_v)
    · rcases hs c' hin_s with h | ⟨v, hv⟩
      · exact Or.inl h
      · rcases List.mem_cons.1 hv with heq | htail
        · by_cases hcV : c' ∈ V
          · exact Or.inl hcV
          · exfalso
            have hvals : ∀ u ∈ v, u ∈ V := by
              intro u hu
              apply hL kv (List.mem_cons_self _ _)
              rw [← heq]
              exact hu
            have hnotin : c' ∉ v := fun h => hcV (hvals c' h)
            have : c' ∉ replaceStr s kv.1 kv.2 := by
              rw [← heq]
              exact not_mem_replaceGo_single hnotin s.length s le_rfl
            exact this hc'
        · exact Or.inr ⟨v, htail⟩

/-- `check_sequence_is_valid` accepts exactly the sequences all of whose
characters lie in the active alphabet. -/
theorem check_sequence_is_valid_iff (s : Str) (a : Bool) :
    (check_sequence_is_valid s a).1 = true ↔
      ∀ c ∈ s, c ∈ (if a then STANDARD_AAS_WITH_GAP else STANDARD_AAS) := by
  unfold check_sequence_is_valid
  cases hf : s.find?
      (fun c => decide (c ∉ if a then STANDARD_AAS_WITH_GAP else STANDARD_AAS)) with
  | none =>
    simp only [hf, true_iff]
    intro c hc
    have := List.find?_eq_none.1 hf c hc
    simpa using this
  | some c =>
    simp only [hf, Bool.false_eq_true, false_iff]
    intro h
    have hmem := List.mem_of_find?_eq_some hf
    have hval := List.find?_some hf
    simp only [decide_eq_true_eq] at hval
    exact hval (h c hmem)

/-- The corrected-record count of `convert_invalid_sequences` is the
number of records whose sequence string differs before and after the
conversion. -/
theorem convert_invalid_sequences_count (dataset : List Rec)
    (cd : Option (List (Str × Str))) (a : Bool) :
    (convert_invalid_sequences dataset cd a).2 =
      dataset.countP (fun r => decide (convert_to_valid r.seq a cd ≠ r.seq)) := by
  induction dataset with
  | nil => rfl
  | cons r rest ih =>
    simp only [convert_invalid_sequences, List.countP_cons, ih]
    by_cases h : convert_to_valid r.seq a cd = r.seq
    · simp [h]
    · simp [h]
      omega

/-- `deal_with_invalid_sequences` with action `"ignore"` is the identity. -/
theorem deal_with_invalid_sequences_ignore (data : List Rec) (a : Bool)
    (cd : Option (List (Str × Str))) :
    deal_with_invalid_sequences data "ignore" a cd = .ok data := by
  unfold deal_with_invalid_sequences
  rw [if_neg (by decide), if_neg (by decide), if_neg (by decide), if_pos rfl]

/-- `deal_with_duplicate_records` with action `"ignore"` is the identity. -/
theorem deal_with_duplicate_records_ignore (data : List Rec) :
    deal_with_duplicate_records data "ignore" = .ok data := by
  unfold deal_with_duplicate_records
  rw [if_pos rfl]

/-- `deal_with_duplicate_sequences` with action `"ignore"` is the identity. -/
theorem deal_with_duplicate_sequences_ignore (data : List Rec) :
    deal_with_duplicate_sequences data "ignore" = .ok data := by
  unfold deal_with_duplicate_sequences
  rw [if_pos rfl]

/-- Unfolding `lookupAssoc` over a cons cell. -/
theorem lookupAssoc_cons {α : Type} (p : Str × α) (l : List (Str × α))
    (h : Str) :
    lookupAssoc (p :: l) h =
      if p.1 = h then some p.2 else lookupAssoc l h := by
  by_cases hp : p.1 = h
  · simp [lookupAssoc, hp]
  · simp [lookupAssoc, hp]

/-- `lookupAssoc` on a singleton table. -/
theorem lookupAssoc_singleton {α : Type} (k : Str) (v : α) (h : Str) :
    lookupAssoc [(k, v)] h = if k = h then some v else none := by
  by_cases hk : k = h
  · simp [lookupAssoc, hk]
  · simp [lookupAssoc, hk]

/-- A hit in the left table decides an appended lookup. -/
theorem lookupAssoc_append_of_some {α : Type} {l1 : List (Str × α)}
    (l2 : List (Str × α)) {h : Str} {v : α}
    (h1 : lookupAssoc l1 h = some v) :
    lookupAssoc (l1 ++ l2) h = some v := by
  induction l1 with
  | nil => simp [lookupAssoc] at h1
  | cons p l1 ih =>
    rw [List.cons_append, lookupAssoc_cons] at *
    by_cases hp : p.1 = h
    · rw [if_pos hp] at h1 ⊢; exact h1
    · rw [if_neg hp] at h1 ⊢; exact ih h1

/-- A miss in the left table defers an appended lookup to the right. -/
theorem lookupAssoc_append_of_none {α : Type} {l1 : List (Str × α)}
    (l2 : List (Str × α)) {h : Str} (h1 : lookupAssoc l1 h = none) :
    lookupAssoc (l1 ++ l2) h = lookupAssoc l2 h := by
  induction l1 with
  | nil => rfl
  | cons p l1 ih =>
    rw [lookupAssoc_cons] at h1
    rw [List.cons_append, lookupAssoc_cons]
    by_cases hp : p.1 = h
    · rw [if_pos hp] at h1; cases h1
    · rw [if_neg hp] at h1
      rw [if_neg hp]
      exact ih h1

/-- Updating the present key `k` makes its lookup return the new value. -/
theorem lookupAssoc_updateAssoc_self {α : Type} {l : List (Str × α)}
    {k : Str} (v : α) {w : α} (h1 : lookupAssoc l k = some w) :
    lookupAssoc (updateAssoc l k v) k = some v := by
  induction l with
  | nil => simp [lookupAssoc] at h1
  | cons p l ih =>
    rw [lookupAssoc_cons] at h1
    show lookupAssoc ((if p.1 = k then (k, v) else p) :: updateAssoc l k v) k
      = some v
    rw [lookupAssoc_cons]
    by_cases hp : p.1 = k
    · rw [if_pos hp]
      simp
    · rw [if_neg hp] at h1
      rw [if_neg hp, if_neg hp]
      exact ih h1

/-- Updating key `k` leaves lookups of other keys unchanged. -/
theorem lookupAssoc_updateAssoc_ne {α : Type} (l : List (Str × α))
    (k : Str) (v : α) (h : Str) (hne : h ≠ k) :
    lookupAssoc (updateAssoc l k v) h = lookupAssoc l h := by
  induction l with
  | nil => rfl
  | cons p l ih =>
    show lookupAssoc ((if p.1 = k then (k, v) else p) :: updateAssoc l k v) h
      = _
    rw [lookupAssoc_cons, lookupAssoc_cons]
    by_cases hp : p.1 = k
    · rw [if_pos hp]
      rw [if_neg (fun hk => hne hk.symm), if_neg (fun hh => hne (hp ▸ hh).symm)]
      exact ih
    · rw [if_neg hp]
      by_cases hph : p.1 = h
      · rw [if_pos hph, if_pos hph]
      · rw [if_neg hph, if_neg hph]
        exact ih

/-- Loop invariant for `fail_on_duplicates`: with `lookup` agreeing with
the first-occurrence map of the already-processed prefix `seen`, the loop
errors exactly when some remaining entry equals the first entry sharing
its header among everything before it. -/
theorem fail_on_duplicates_go_iff :
    ∀ (rest : List (Str × Str)) (lookup seen : List (Str × Str)),
      (∀ h, lookupAssoc lookup h = lookupAssoc seen h) →
      ((∃ m, fail_on_duplicates_go lookup rest = .error m) ↔
        ∃ i : Fin rest.length,
          lookupAssoc (seen ++ rest.take i.val) (rest.get i).1 =
            some (rest.get i).2) := by
  intro rest
  induction rest with
  | nil =>
    intro lookup seen hinv
    constructor
    · rintro ⟨m, hm⟩
      simp [fail_on_duplicates_go] at hm
    · rintro ⟨i, _⟩
      exact absurd i.2 (by simp)
  | cons e rest ih =>
    intro lookup seen hinv
    have htake : ∀ (i : Fin rest.length),
        seen ++ (e :: rest).take i.succ.val = (seen ++ [e]) ++ rest.take i.val := by
      intro i
      simp [Fin.val_succ, List.take_succ_cons, List.append_assoc]
    have hsucc : ∀ (i : Fin rest.length),
        (lookupAssoc (seen ++ (e :: rest).take i.succ.val)
            ((e :: rest).get i.succ).1 = some ((e :: rest).get i.succ).2) ↔
        (lookupAssoc ((seen ++ [e]) ++ rest.take i.val) (rest.get i).1 =
            some (rest.get i).2) := by
      intro i
      rw [List.get_cons_succ', htake i]
    have hzero :
        (lookupAssoc (seen ++ (e :: rest).take (0 : Fin (rest.length + 1)).val)
            ((e :: rest).get (0 : Fin (rest.length + 1))).1 =
          some ((e :: rest).get (0 : Fin (rest.length + 1))).2) ↔
        (lookupAssoc seen e.1 = some e.2) := by
      rw [show ((0 : Fin (rest.length + 1)).val) = 0 from rfl, List.take_zero,
        List.append_nil, List.get_cons_zero]
    rw [fail_on_duplicates_go]
    simp only [List.length_cons]
    rw [Fin.exists_fin_succ]
    cases hl : lookupAssoc lookup e.1 with
    | some v =>
      simp only []
      by_cases hv : v = e.2
      · rw [if_pos hv]
        constructor
        · intro _
          refine Or.inl (hzero.2 ?_)
          rw [← hinv, hl, hv]
        · intro _
          exact ⟨_, rfl⟩
      · rw [if_neg hv]
        have hinv' : ∀ h2, lookupAssoc lookup h2 = lookupAssoc (seen ++ [e]) h2 := by
          intro h2
          by_cases he : e.1 = h2
          · subst he
            rw [lookupAssoc_append_of_some [e] ((hinv e.1).symm.trans hl)]
            exact hl
          · cases hx : lookupAssoc seen h2 with
            | some w =>
              rw [lookupAssoc_append_of_some [e] hx, hinv, hx]
            | none =>
              rw [lookupAssoc_append_of_none [e] hx, hinv, hx,
                lookupAssoc_singleton, if_neg he]
        rw [ih lookup (seen ++ [e]) hinv']
        constructor
        · rintro ⟨i, hi⟩
          exact Or.inr ⟨i, (hsucc i).2 hi⟩
        · rintro (h0 | ⟨i, hi⟩)
          · exfalso
            have := hzero.1 h0
            rw [← hinv, hl] at this
            exact hv (Option.some.inj this)
          · exact ⟨i, (hsucc i).1 hi⟩
    | none =>
      simp only []
      have hseen : lookupAssoc seen e.1 = none := by rw [← hinv]; exact hl
      have hinv' : ∀ h2, lookupAssoc (lookup ++ [(e.1, e.2)]) h2 =
          lookupAssoc (seen ++ [e]) h2 := by
        intro h2
        cases hx : lookupAssoc lookup h2 with
        | some w =>
          rw [lookupAssoc_append_of_some _ hx,
            lookupAssoc_append_of_some [e] ((hinv h2).symm.trans hx)]
        | none =>
          rw [lookupAssoc_append_of_none _ hx,
            lookupAssoc_append_of_none [e] ((hinv h2).symm.trans hx)]
      rw [ih (lookup ++ [(e.1, e.2)]) (seen ++ [e]) hinv']
      constructor
      · rintro ⟨i, hi⟩
        exact Or.inr ⟨i, (hsucc i).2 hi⟩
      · rintro (h0 | ⟨i, hi⟩)
        · exfalso
          have := hzero.1 h0
          rw [hseen] at this
          cases this
        · exact ⟨i, (hsucc i).1 hi⟩

/-- `fail_on_duplicates` errors exactly when some entry equals the FIRST
earlier entry carrying the same header. -/
theorem fail_on_duplicates_iff (d : List (Str × Str)) :
    (∃ m, fail_on_duplicates d = .error m) ↔
      ∃ i : Fin d.length,
        lookupAssoc (d.take i.val) (d.get i).1 = some (d.get i).2 := by
  have h := fail_on_duplicates_go_iff d [] [] (fun _ => rfl)
  simpa using h

/-- Loop invariant for `remove_duplicates`: with `lookup` holding exactly
the (header, sequence) pairs of `acc`, the loop computes the
first-occurrence deduplication continued from `acc`. -/
theorem remove_duplicates_go_eq :
    ∀ (d : List (Str × Str)) (lookup : List (Str × List Str))
      (acc : List (Str × Str)),
      (∀ h s, (∃ ss, lookupAssoc lookup h = some ss ∧ s ∈ ss) ↔ (h, s) ∈ acc) →
      remove_duplicates_go lookup acc d =
        d.foldl (fun acc e => if e ∈ acc then acc else acc ++ [e]) acc := by
  intro d
  induction d with
  | nil => intro lookup acc hinv; rfl
  | cons e rest ih =>
    intro lookup acc hinv
    rw [remove_duplicates_go, List.foldl_cons]
    cases hl : lookupAssoc lookup e.1 with
    | none =>
      simp only []
      have hnot : e ∉ acc := by
        intro hmem
        rcases (hinv e.1 e.2).2 hmem with ⟨ss, hss, _⟩
        rw [hl] at hss
        cases hss
      rw [if_neg hnot]
      apply ih
      intro h s
      constructor
      · rintro ⟨ss, hss, hsmem⟩
        by_cases he : e.1 = h
        · subst he
          rw [lookupAssoc_append_of_none _ hl, lookupAssoc_singleton,
            if_pos rfl] at hss
          have hss' : ss = [e.2] := (Option.some.inj hss).symm
          subst hss'
          have : s = e.2 := by simpa using hsmem
          subst this
          exact List.mem_append.2 (Or.inr (by simp))
        · cases hx : lookupAssoc lookup h with
          | some w =>
            rw [lookupAssoc_append_of_some _ hx] at hss
            exact List.mem_append.2
              (Or.inl ((hinv h s).1 ⟨w, hx, (Option.some.inj hss) ▸ hsmem⟩))
          | none =>
            rw [lookupAssoc_append_of_none _ hx, lookupAssoc_singleton,
              if_neg he] at hss
            cases hss
      · intro hmem
        rcases List.mem_append.1 hmem with hacc | hsng
        · rcases (hinv h s).2 hacc with ⟨ss, hss, hsmem⟩
          exact ⟨ss, lookupAssoc_append_of_some _ hss, hsmem⟩
        · have hpair : h = e.1 ∧ s = e.2 := by
            have : (h, s) = e := by simpa using hsng
            exact ⟨congrArg Prod.fst this, congrArg Prod.snd this⟩
          refine ⟨[e.2], ?_, by simp [hpair.2]⟩
          rw [hpair.1, lookupAssoc_append_of_none _ hl, lookupAssoc_singleton,
            if_pos rfl]
    | some ss =>
      simp only []
      by_cases hse : e.2 ∈ ss
      · have hmem : e ∈ acc := (hinv e.1 e.2).1 ⟨ss, hl, hse⟩
        rw [if_pos hse, if_pos hmem]
        exact ih _ _ hinv
      · have hnot : e ∉ acc := by
          intro hmem
          rcases (hinv e.1 e.2).2 hmem with ⟨ss', hss', hsmem⟩
          rw [hl] at hss'
          exact hse ((Option.some.inj hss') ▸ hsmem)
        rw [if_neg hnot, if_neg hse]
        apply ih
        intro h s
        constructor
        · rintro ⟨ss', hss', hsmem⟩
          by_cases he : e.1 = h
          · subst he
            rw [lookupAssoc_updateAssoc_self _ hl] at hss'
            have : s ∈ ss ++ [e.2] := (Option.some.inj hss') ▸ hsmem
            rcases List.mem_append.1 this with hs1 | hs2
            · exact List.mem_append.2 (Or.inl ((hinv e.1 s).1 ⟨ss, hl, hs1⟩))
            · have : s = e.2 := by simpa using hs2
              subst this
              exact List.mem_append.2 (Or.inr (by simp))
          · rw [lookupAssoc_updateAssoc_ne _ _ _ _ (fun hh => he hh.symm)]
              at hss'
            exact List.mem_append.2 (Or.inl ((hinv h s).1 ⟨ss', hss', hsmem⟩))
        · intro hmem
          rcases List.mem_append.1 hmem with hacc | hsng
          · rcases (hinv h s).2 hacc with ⟨ss', hss', hsmem⟩
            by_cases he : e.1 = h
            · subst he
              have hss'' : ss' = ss := Option.some.inj (hss'.symm.trans hl)
              subst hss''
              exact ⟨ss' ++ [e.2], lookupAssoc_updateAssoc_self _ hl,
                List.mem_append.2 (Or.inl hsmem)⟩
            · exact ⟨ss',
                by rw [lookupAssoc_updateAssoc_ne _ _ _ _ (fun hh => he hh.symm)]
                   exact hss', hsmem⟩
          · have hpair : h = e.1 ∧ s = e.2 := by
              have : (h, s) = e := by simpa using hsng
              exact ⟨congrArg Prod.fst this, congrArg Prod.snd this⟩
            refine ⟨ss ++ [e.2], ?_, by simp [hpair.2]⟩
            rw [hpair.1]
            exact lookupAssoc_updateAssoc_self _ hl

/-- `remove_duplicates` equals the first-occurrence deduplication of the
(header, sequence) pairs. -/
theorem remove_duplicates_eq_firstDedup (d : List (Str × Str)) :
    remove_duplicates d = firstDedup d := by
  apply remove_duplicates_go_eq
  intro h s
  constructor
  · rintro ⟨ss, hss, _⟩
    cases hss
  · intro hmem
    cases hmem

/-- The parser invariant: `all_headers` holds exactly the headers of the
records emitted so far, and (in strict mode) those headers are pairwise
distinct. -/
def ParseInv (st : List Str × List Rec) : Prop :=
  (∀ h, h ∈ st.1 ↔ h ∈ st.2.map Rec.header) ∧ (st.2.map Rec.header).Nodup

/-- In strict mode, a successful `parse_update` preserves the parser
invariant (a repeated header would have panicked instead). -/
theorem parse_update_ok_strict (header seq : Str)
    (st st' : List Str × List Rec) (hP : ParseInv st)
    (hok : parse_update header seq true st = .ok st') : ParseInv st' := by
  unfold parse_update at hok
  split at hok
  · simp at hok
  · next hcont =>
    have hnotin : header ∉ st.1 := by
      intro hmem
      exact hcont (List.elem_iff.2 hmem)
    cases hok
    constructor
    · intro h
      simp only [List.mem_append, List.map_append, List.map_cons,
        List.map_nil, List.mem_singleton, List.mem_cons]
      rw [hP.1 h]
    · simp only [List.map_append, List.map_cons, List.map_nil]
      rw [List.nodup_append]
      refine ⟨hP.2, List.nodup_singleton _, ?_⟩
      intro a ha hb
      have : a = header := by simpa using hb
      subst this
      exact hnotin ((hP.1 a).2 ha)

/-- In strict mode, a completed `parse_loop` run preserves the parser
invariant from its initial state to its final state. -/
theorem parse_loop_strict_invariant (hp : Option (Str → Str)) :
    ∀ (lines : List Str) (header seq : Str) (st st' : List Str × List Rec),
      ParseInv st → parse_loop true hp lines header seq st = .ok st' →
      ParseInv st' := by
  intro lines
  induction lines with
  | nil =>
    intro header seq st st' hP hok
    rw [parse_loop] at hok
    split at hok
    · exact (Except.ok.inj hok) ▸ hP
    · exact parse_update_ok_strict _ _ _ _ hP hok
  | cons line rest ih =>
    intro header seq st st' hP hok
    rw [parse_loop] at hok
    split at hok
    · exact ih _ _ _ _ hP hok
    · split at hok
      · split at hok
        · next heq => simp at hok
        · next st'' heq =>
          have hP'' : ParseInv st'' := by
            split at heq
            · exact (Except.ok.inj heq) ▸ hP
            · exact parse_update_ok_strict _ _ _ _ hP heq
          exact ih _ _ _ _ hP'' hok
      · exact ih _ _ _ _ hP hok

/-- C3 counterexample: on input `>A / MKV / >A / MKR` with strict header
uniqueness, `_parse_fasta_all` aborts via `panic!` (modeled as
`ParseOutcome.panicked`) instead of returning a structured error result
to the caller. -/
theorem parse_duplicate_header_panics_counterexample :
    _parse_fasta_all [">A".toList, "MKV".toList, ">A".toList, "MKR".toList]
      true none = ParseOutcome.panicked "Found duplicate header (A)" := rfl

/-- C3 (amended): with `expect_unique_header = true` a repeated header
makes the parser abort via a `panic!` (`Found duplicate header (h)`), not
return an error result; equivalently, whenever strict parsing does NOT
panic, the returned records carry pairwise distinct headers. -/
theorem parse_strict_ok_headers_nodup (content : List Str)
    (hp : Option (Str → Str)) (d : List Rec)
    (h : _parse_fasta_all content true hp = ParseOutcome.ok d) :
    (d.map Rec.header).Nodup := by
  unfold _parse_fasta_all at h
  cases hres : parse_loop true hp content [] [] ([], []) with
  | ok st =>
    rw [hres] at h
    simp only [] at h
    have hd : st.2 = d := by
      cases h
      rfl
    have hP := parse_loop_strict_invariant hp content [] [] ([], []) st
      ⟨fun h2 => by simp, by simp⟩ hres
    exact hd ▸ hP.2
  | error e =>
    rw [hres] at h
    simp at h

/-- Witness for C3's amended theorem at a duplicate-free input. -/
theorem parse_strict_ok_headers_nodup_witness :
    _parse_fasta_all [">A".toList, "MKV".toList, ">B".toList, "MKR".toList]
      true none = ParseOutcome.ok
        [⟨"A".toList, "MKV".toList⟩, ⟨"B".toList, "MKR".toList⟩] ∧
    (([⟨"A".toList, "MKV".toList⟩, ⟨"B".toList, "MKR".toList⟩] : List Rec).map
      Rec.header).Nodup :=
  ⟨rfl, parse_strict_ok_headers_nodup
    [">A".toList, "MKV".toList, ">B".toList, "MKR".toList] none
    [⟨"A".toList, "MKV".toList⟩, ⟨"B".toList, "MKR".toList⟩] rfl⟩

/-! Claim theorems. -/

/-- C2 counterexample: in `[("h","A"), ("h","B"), ("h","B")]` the third
entry matches the second (same header AND same sequence), so the list has
a both-match duplicate (it is not `Nodup`), yet `fail_on_duplicates`
returns `Ok`: it only compares against the FIRST sequence stored per
header and never records later same-header sequences. -/
theorem fail_on_duplicates_misses_repeat_counterexample :
    fail_on_duplicates
      [("h".toList, "A".toList), ("h".toList, "B".toList),
        ("h".toList, "B".toList)] = Except.ok () ∧
    ¬ List.Nodup
      [(("h".toList : Str), ("A".toList : Str)), ("h".toList, "B".toList),
        ("h".toList, "B".toList)] :=
  ⟨rfl, by decide⟩

/-- C2 (amended): `remove_duplicates` drops exactly the entries whose
(header, sequence) pair occurred earlier, keeping the first occurrence of
each pair in original order (`firstDedup`); `fail_on_duplicates`, however,
errors exactly when some entry equals the FIRST earlier entry with its
header (`lookupAssoc` of the preceding prefix), so an entry duplicating a
later same-header variant is not detected. -/
theorem duplicates_combined_key_characterization (d : List (Str × Str)) :
    remove_duplicates d = firstDedup d ∧
    ((∃ m, fail_on_duplicates d = Except.error m) ↔
      ∃ i : Fin d.length,
        lookupAssoc (d.take i.val) (d.get i).1 = some (d.get i).2) :=
  ⟨remove_duplicates_eq_firstDedup d, fail_on_duplicates_iff d⟩

/-- Witness for C2 at `[("h","A"), ("h","A")]`: the dedup equation holds
and `fail_on_duplicates` does error there (entry 1 equals the first
earlier entry with header `h`). -/
theorem duplicates_combined_key_witness :
    remove_duplicates [("h".toList, "A".toList), ("h".toList, "A".toList)] =
      firstDedup [("h".toList, "A".toList), ("h".toList, "A".toList)] ∧
    (∃ m, fail_on_duplicates
        [("h".toList, "A".toList), ("h".toList, "A".toList)] =
      Except.error m) :=
  ⟨(duplicates_combined_key_characterization
      [("h".toList, "A".toList), ("h".toList, "A".toList)]).1,
    (duplicates_combined_key_characterization
        [("h".toList, "A".toList), ("h".toList, "A".toList)]).2.mpr
      ⟨⟨1, by decide⟩, by decide⟩⟩

/-- The post-parser checks of `check_inputs` reject `return_list = false`,
`verbose = false` and `alignment = false`, and reject
`duplicate_record_action = "ignore"` whenever `expect_unique_header` is
true. -/
theorem check_inputs_rest_reject (expect_unique_header : Bool)
    (dra dsa isa2 : String) (alignment return_list : Bool)
    (output_filename : Option String) (verbose : Bool)
    (cd : Option (List (String × String))) :
    ((return_list = false ∨ verbose = false ∨ alignment = false) →
      ∃ m, check_inputs_rest expect_unique_header dra dsa isa2 alignment
        return_list output_filename verbose cd = Except.error m) ∧
    ((dra = "ignore" ∧ expect_unique_header = true) →
      ∃ m, check_inputs_rest expect_unique_header dra dsa isa2 alignment
        return_list output_filename verbose cd = Except.error m) := by
  unfold check_inputs_rest
  constructor
  · intro hflag
    split_ifs <;>
      first
        | exact ⟨_, rfl⟩
        | (rcases hflag with h | h | h <;> simp_all)
  · intro hig
    split_ifs <;> exact ⟨_, rfl⟩

/-- C10 counterexample: with a header parser supplied and
`check_header_parser = true`, `check_inputs` returns the parser test's
outcome immediately, here `Ok`, although `return_list`, `verbose` and
`alignment` are all false and `duplicate_record_action` is `"ignore"` —
all of which the claim says are always rejected. -/
theorem check_inputs_early_return_counterexample :
    check_inputs true (some (fun _ => Except.ok "")) true "ignore" "ignore"
      "ignore" false false none false none = Except.ok () := rfl

/-- C10 (amended): when no header parser is supplied or
`check_header_parser` is false (so the early-return path is not taken),
`check_inputs` errors whenever any of `expect_unique_header`,
`return_list`, `verbose`, `alignment` is false, and it never accepts
`duplicate_record_action = "ignore"`. -/
theorem check_inputs_no_early_return_spec (expect_unique_header : Bool)
    (header_fn : Option (String → Except String String))
    (check_header_fn : Bool) (dra dsa isa2 : String)
    (alignment return_list : Bool) (output_filename : Option String)
    (verbose : Bool) (cd : Option (List (String × String)))
    (hno : header_fn = none ∨ check_header_fn = false) :
    ((expect_unique_header = false ∨ return_list = false ∨ verbose = false ∨
        alignment = false) →
      ∃ m, check_inputs expect_unique_header header_fn check_header_fn dra
        dsa isa2 alignment return_list output_filename verbose cd =
        Except.error m) ∧
    (dra = "ignore" →
      ∃ m, check_inputs expect_unique_header header_fn check_header_fn dra
        dsa isa2 alignment return_list output_filename verbose cd =
        Except.error m) := by
  have hred : check_inputs expect_unique_header header_fn check_header_fn dra
      dsa isa2 alignment return_list output_filename verbose cd =
      if expect_unique_header = false then
        .error "keyword 'expect_unique_header' must be a boolean"
      else check_inputs_rest expect_unique_header dra dsa isa2 alignment
        return_list output_filename verbose cd := by
    rcases hno with h | h
    · subst h
      cases check_header_fn <;> rfl
    · subst h
      cases header_fn <;> rfl
  rw [hred]
  by_cases hexp : expect_unique_header = false
  · rw [if_pos hexp]
    exact ⟨fun _ => ⟨_, rfl⟩, fun _ => ⟨_, rfl⟩⟩
  · rw [if_neg hexp]
    have hexp' : expect_unique_header = true := by
      revert hexp
      cases expect_unique_header <;> simp
    constructor
    · intro hflag
      rcases hflag with h | h | h | h
      · exact absurd h hexp
      · exact (check_inputs_rest_reject expect_unique_header dra dsa isa2
          alignment return_list output_filename verbose cd).1 (Or.inl h)
      · exact (check_inputs_rest_reject expect_unique_header dra dsa isa2
          alignment return_list output_filename verbose cd).1 (Or.inr (Or.inl h))
      · exact (check_inputs_rest_reject expect_unique_header dra dsa isa2
          alignment return_list output_filename verbose cd).1
          (Or.inr (Or.inr h))
    · intro hig
      exact (check_inputs_rest_reject expect_unique_header dra dsa isa2
        alignment return_list output_filename verbose cd).2 ⟨hig, hexp'⟩

/-- Witness for C10's amended theorem: with no header parser,
`duplicate_record_action = "ignore"` is rejected even when every boolean
flag is well-formed. -/
theorem check_inputs_no_early_return_witness :
    ((none : Option (String → Except String String)) = none ∨ true = false) ∧
    (∃ m, check_inputs true none true "ignore" "ignore" "ignore" true true
      none true none = Except.error m) :=
  ⟨Or.inl rfl,
    (check_inputs_no_early_return_spec true none true "ignore" "ignore"
      "ignore" true true none true none (Or.inl rfl)).2 rfl⟩

/-- C9: `check_sequence_is_valid("MKV-", alignment=false)` returns
`(false, '-')` — the gap is the only character of that sequence outside
the non-gap alphabet — and with `alignment=true` the first component is
`true`. -/
theorem check_sequence_is_valid_gap_scenario :
    check_sequence_is_valid "MKV-".toList false = (false, '-') ∧
    (check_sequence_is_valid "MKV-".toList true).1 = true :=
  ⟨rfl, rfl⟩

/-- C7: `convert_invalid_sequences` on `[("h1", "MKBX")]` with the default
non-alignment table yields `[("h1", "MKNG")]` (B→N, X→G) with corrected
count 1, and in general the returned count is the number of records whose
sequence string differs before and after conversion. -/
theorem convert_invalid_sequences_scenario_and_count :
    convert_invalid_sequences [⟨"h1".toList, "MKBX".toList⟩] none false =
      ([⟨"h1".toList, "MKNG".toList⟩], 1) ∧
    ∀ (dataset : List Rec) (cd : Option (List (Str × Str))) (a : Bool),
      (convert_invalid_sequences dataset cd a).2 =
        dataset.countP
          (fun r => decide (convert_to_valid r.seq a cd ≠ r.seq)) :=
  ⟨rfl, convert_invalid_sequences_count⟩

/-- C8: `remove_invalid_sequences` returns an order-preserving subsequence
of the input in which every retained record's sequence is valid and every
dropped record's sequence is invalid. -/
theorem remove_invalid_sequences_subsequence_spec (dataset : List Rec)
    (alignment : Bool) :
    List.Sublist (remove_invalid_sequences dataset alignment) dataset ∧
    (∀ r ∈ remove_invalid_sequences dataset alignment,
      (check_sequence_is_valid r.seq alignment).1 = true) ∧
    (∀ r ∈ dataset, r ∉ remove_invalid_sequences dataset alignment →
      (check_sequence_is_valid r.seq alignment).1 = false) := by
  refine ⟨List.filter_sublist _, ?_, ?_⟩
  · intro r hr
    exact (List.mem_filter.1 hr).2
  · intro r hr hnot
    cases hval : (check_sequence_is_valid r.seq alignment).1 with
    | false => rfl
    | true => exact absurd (List.mem_filter.2 ⟨hr, hval⟩) hnot

/-- Witness for C8 at a concrete dataset: the record with sequence `MK1`
is in the input and not in the output, and its sequence is invalid. -/
theorem remove_invalid_sequences_subsequence_witness :
    ((⟨"g".toList, "MK1".toList⟩ : Rec) ∈
        ([⟨"h".toList, "MKV".toList⟩, ⟨"g".toList, "MK1".toList⟩] : List Rec) ∧
      (⟨"g".toList, "MK1".toList⟩ : Rec) ∉
        remove_invalid_sequences
          [⟨"h".toList, "MKV".toList⟩, ⟨"g".toList, "MK1".toList⟩] false) ∧
    (check_sequence_is_valid "MK1".toList false).1 = false :=
  ⟨⟨by decide, by decide⟩,
    (remove_invalid_sequences_subsequence_spec
        [⟨"h".toList, "MKV".toList⟩, ⟨"g".toList, "MK1".toList⟩] false).2.2
      ⟨"g".toList, "MK1".toList⟩ (by decide) (by decide)⟩

/-- C4 counterexample: writing `[("h", "MKVLA")]` with `line_length = 3`
emits the sequence as the single width-5 chunk `"MKVLA\n"` (the width is
clamped to 5), not as the width-3 chunks `"MKV\nLA\n"` the claim states. -/
theorem write_fasta_line_length_counterexample :
    write_fasta_render [["h".toList, "MKVLA".toList]] (some 3) =
      Except.ok ">h\nMKVLA\n\n".toList ∧
    (">h\nMKVLA\n\n".toList : Str) ≠ ">h\nMKV\nLA\n\n".toList :=
  ⟨rfl, by decide⟩

/-- C4 (amended): with `line_length = 3` silently clamped to 5, the record
`("h", "MKVLA")` is written as the header line, the single chunk
`"MKVLA\n"`, and a blank separator line. -/
theorem write_fasta_line_length_clamped :
    write_fasta_render [["h".toList, "MKVLA".toList]] (some 3) =
      Except.ok ">h\nMKVLA\n\n".toList := rfl

/-- C1: `check_inputs` accepts `"convert-remove"` as a valid
`invalid_sequence_action`, yet `deal_with_invalid_sequences` has no match
arm for it and rejects it with the `Invalid option` error instead of
converting and then dropping still-invalid records. -/
theorem convert_remove_rejected_by_pipeline :
    check_inputs true none false "fail" "fail" "convert-remove" true true
      none true none = Except.ok () ∧
    deal_with_invalid_sequences [⟨"h1".toList, "MKV".toList⟩]
      "convert-remove" false none =
      Except.error "Invalid option for 'invalid_sequence_action': convert-remove" :=
  ⟨rfl, rfl⟩

/-- C5: for every sequence `S` and alignment flag `A`, if the default
correction table for `A` maps every out-of-alphabet character occurring in
`S` to a character inside the active alphabet, then the converted sequence
is valid.  (With the tables fully fixed, the hypothesis is stated per
occurring character; it is exactly the table-adequacy premise of the
claim, and the conclusion is insensitive to the unspecified `HashMap`
iteration order of the source because the proof goes through
`foldl_replace_mem_alphabet` for an arbitrary entry order.) -/
theorem convert_to_valid_default_roundtrip (S : Str) (A : Bool)
    (h : ∀ c ∈ S, c ∉ (if A then STANDARD_AAS_WITH_GAP else STANDARD_AAS) →
      ∃ kv ∈ (if A then STANDARD_CONVERSION_WITH_GAP else STANDARD_CONVERSION),
        kv.1 = [c] ∧
        ∃ u ∈ (if A then STANDARD_AAS_WITH_GAP else STANDARD_AAS),
          kv.2 = [u]) :
    (check_sequence_is_valid (convert_to_valid S A none) A).1 = true := by
  rw [check_sequence_is_valid_iff]
  have hvals : ∀ kv ∈
      (if A then STANDARD_CONVERSION_WITH_GAP else STANDARD_CONVERSION),
      ∀ u ∈ kv.2, u ∈ (if A then STANDARD_AAS_WITH_GAP else STANDARD_AAS) := by
    cases A <;> decide
  have hconv : convert_to_valid S A none =
      (if A then STANDARD_CONVERSION_WITH_GAP else STANDARD_CONVERSION).foldl
        (fun r kv => replaceStr r kv.1 kv.2) S := rfl
  rw [hconv]
  apply foldl_replace_mem_alphabet _ _ _ hvals
  intro c hc
  by_cases hcv : c ∈ (if A then STANDARD_AAS_WITH_GAP else STANDARD_AAS)
  · exact Or.inl hcv
  · rcases h c hc hcv with ⟨kv, hkv, hk1, _⟩
    refine Or.inr ⟨kv.2, ?_⟩
    rw [← hk1]
    exact hkv

/-- Witness for C5 at `S = "MKB"`, `A = false`: the table premise holds
(B is mapped to N) and the converted sequence is valid. -/
theorem convert_to_valid_default_roundtrip_witness :
    (∀ c ∈ ("MKB".toList : Str),
      c ∉ (if false then STANDARD_AAS_WITH_GAP else STANDARD_AAS) →
      ∃ kv ∈
        (if false then STANDARD_CONVERSION_WITH_GAP else STANDARD_CONVERSION),
        kv.1 = [c] ∧
        ∃ u ∈ (if false then STANDARD_AAS_WITH_GAP else STANDARD_AAS),
          kv.2 = [u]) ∧
    (check_sequence_is_valid (convert_to_valid "MKB".toList false none)
      false).1 = true :=
  ⟨by decide, convert_to_valid_default_roundtrip "MKB".toList false (by decide)⟩

/-- C6: the identity pipeline (`invalid_sequence_action = ignore`,
`duplicate_record_action = ignore`, `duplicate_sequence_action = ignore`,
no length bounds, no subsample, no comma rewriting) returns the input
dataset unchanged, hence applying it twice equals applying it once. -/
theorem clean_sequences_identity_idempotent (data : List Rec)
    (alignment : Bool) (shuffle : List Rec → List Rec) :
    clean_sequences data "ignore" "ignore" "ignore" none none none false
      alignment shuffle = Except.ok data ∧
    (clean_sequences data "ignore" "ignore" "ignore" none none none false
        alignment shuffle).bind
      (fun d => clean_sequences d "ignore" "ignore" "ignore" none none none
        false alignment shuffle) =
    clean_sequences data "ignore" "ignore" "ignore" none none none false
      alignment shuffle := by
  have h : ∀ d : List Rec,
      clean_sequences d "ignore" "ignore" "ignore" none none none false
        alignment shuffle = Except.ok d := by
    intro d
    simp [clean_sequences, deal_with_invalid_sequences_ignore,
      deal_with_duplicate_records_ignore, deal_with_duplicate_sequences_ignore,
      Except.bind]
  rw [h data]
  exact ⟨rfl, by simpa [Except.bind] using h data⟩

end Rfasta
